import Mathlib

/-!
Verification of the fantasy-portfolio-analysis backtest core.

This file shallowly embeds the Python source (src/backtest.py, src/utils.py)
in Lean 4 and proves or refutes the frozen claims about it.

Modelling conventions:
* Python floats are modelled as exact rationals (`ℚ`); the claims under
  scrutiny are about exact comparisons and accounting identities, which the
  source expresses directly in float arithmetic.
* `NaN` (a missing price) is modelled as `Option.none`; a present price is
  `some px`.
* Python dicts (insertion ordered, unique keys) are modelled as association
  lists; iteration order of `dict.items()` is the list order.
* `datetime` values are modelled as calendar dates (year, month, day); the
  simulation compares and formats dates at day granularity only, and
  `strftime('%Y-%m-%d')` / `strptime` form a bijection between valid dates
  and their strings, so date strings are modelled by the dates themselves.
* Fallible code (the `ValueError` raised for over-allocated weights, the
  `IndexError` on an empty date list) is modelled with `Except String`.
-/

/-! ## Calendar model (src/backtest.py: get_next_rebalance_date) -/

/-- A calendar date, as in Python's `datetime.date`. -/
structure Date where
  year : ℕ
  month : ℕ
  day : ℕ
deriving DecidableEq

/-- Chronological strict order on dates; for valid dates this coincides with
Python's `datetime` comparison (lexicographic on year, month, day). -/
def Date.lt (a b : Date) : Prop :=
  a.year < b.year ∨ (a.year = b.year ∧
    (a.month < b.month ∨ (a.month = b.month ∧ a.day < b.day)))

instance instDecidableDateLt (a b : Date) : Decidable (Date.lt a b) := by
  unfold Date.lt
  exact inferInstance

/-- Chronological `≤` on dates (Python's `>=` reversed). -/
def Date.le (a b : Date) : Prop := Date.lt a b ∨ a = b

instance instDecidableDateLe (a b : Date) : Decidable (Date.le a b) := by
  unfold Date.le
  exact inferInstance

/-- Gregorian leap-year test, as implemented by `calendar`/`datetime`. -/
def isLeapYear (y : ℕ) : Bool := (y % 4 == 0 && y % 100 != 0) || y % 400 == 0

/-- Number of days in a month of the Gregorian calendar. -/
def daysInMonth (y m : ℕ) : ℕ :=
  if m = 2 then (if isLeapYear y then 29 else 28)
  else if m = 4 ∨ m = 6 ∨ m = 9 ∨ m = 11 then 30
  else 31

/-- A real calendar date (what Python's `datetime.date` can represent). -/
def ValidDate (d : Date) : Prop :=
  1 ≤ d.year ∧ 1 ≤ d.month ∧ d.month ≤ 12 ∧ 1 ≤ d.day ∧ d.day ≤ daysInMonth d.year d.month

instance instDecidableValidDate (d : Date) : Decidable (ValidDate d) := by
  unfold ValidDate
  exact inferInstance

/-- `d + timedelta(days=1)`. -/
def Date.nextDay (d : Date) : Date :=
  if d.day < daysInMonth d.year d.month then ⟨d.year, d.month, d.day + 1⟩
  else if d.month < 12 then ⟨d.year, d.month + 1, 1⟩
  else ⟨d.year + 1, 1, 1⟩

/-- `d - timedelta(days=1)`. -/
def Date.prevDay (d : Date) : Date :=
  if 1 < d.day then ⟨d.year, d.month, d.day - 1⟩
  else if 1 < d.month then ⟨d.year, d.month - 1, daysInMonth d.year (d.month - 1)⟩
  else ⟨d.year - 1, 12, 31⟩

/-- `d + timedelta(days=n)`. -/
def Date.addDays (d : Date) : ℕ → Date
  | 0 => d
  | n + 1 => (d.nextDay).addDays n

/-- Days before January 1 of year `y` in the proleptic Gregorian calendar
(the standard `date.toordinal()` year part). -/
def daysBeforeYear (y : ℕ) : ℕ :=
  365 * (y - 1) + (y - 1) / 4 - (y - 1) / 100 + (y - 1) / 400

/-- Days in year `y` strictly before month `m`. -/
def daysBeforeMonth (y m : ℕ) : ℕ :=
  ((List.range (m - 1)).map (fun i => daysInMonth y (i + 1))).sum

/-- Python's `date.toordinal()`: day count with 0001-01-01 as ordinal 1. -/
def Date.toOrdinal (d : Date) : ℕ :=
  daysBeforeYear d.year + daysBeforeMonth d.year d.month + d.day

/-- Python's `date.weekday()`: Monday = 0 .. Sunday = 6. -/
def Date.weekday (d : Date) : ℕ := (d.toOrdinal + 6) % 7

/-- `date(y, m, 1) + relativedelta(months=k)`, as used by
`get_next_rebalance_date` with k ∈ {1, 2} and 1 ≤ m ≤ 12. -/
def addMonthsFirst (y m k : ℕ) : Date :=
  if m + k ≤ 12 then ⟨y, m + k, 1⟩ else ⟨y + 1, m + k - 12, 1⟩

/-- Embedding of `get_next_rebalance_date(current_date, frequency)`
(src/backtest.py lines 7-79).  Returns `none` where the source returns
`None` (frequency `'none'` or any unrecognized string). -/
def get_next_rebalance_date (current_date : Date) (frequency : String) : Option Date :=
  if frequency = "daily" then
    some (current_date.addDays 1)
  else if frequency = "weekly" then
    let wday := current_date.weekday
    let days_until_friday := ((4 - (wday : ℤ)) % 7).toNat
    let days_until_friday := if days_until_friday = 0 then 7 else days_until_friday
    some (current_date.addDays days_until_friday)
  else if frequency = "monthly" then
    let last_day_this_month := (addMonthsFirst current_date.year current_date.month 1).prevDay
    if Date.le last_day_this_month current_date then
      some (addMonthsFirst current_date.year current_date.month 2).prevDay
    else
      some last_day_this_month
  else if frequency = "quarterly" then
    let quarter := (current_date.month - 1) / 3 + 1
    let quarter_end_month := quarter * 3
    let quarter_end_date := (addMonthsFirst current_date.year quarter_end_month 1).prevDay
    if Date.le quarter_end_date current_date then
      let nq : ℕ × ℕ :=
        if quarter + 1 > 4 then (1, current_date.year + 1) else (quarter + 1, current_date.year)
      some (addMonthsFirst nq.2 (nq.1 * 3) 1).prevDay
    else
      some quarter_end_date
  else if frequency = "annually" then
    let year_end_date : Date := ⟨current_date.year, 12, 31⟩
    if Date.le year_end_date current_date then some ⟨current_date.year + 1, 12, 31⟩
    else some year_end_date
  else
    none

/-! ### Order lemmas for dates -/

theorem Date.lt_def {a b : Date} :
    Date.lt a b ↔ (a.year < b.year ∨ (a.year = b.year ∧
      (a.month < b.month ∨ (a.month = b.month ∧ a.day < b.day)))) := Iff.rfl

theorem Date.not_le {a b : Date} (h : ¬ Date.le a b) : Date.lt b a := by
  cases a with
  | mk ay am ad =>
    cases b with
    | mk byy bm bd =>
      simp only [Date.le, Date.lt, Date.mk.injEq, not_or, not_and, not_lt] at h ⊢
      omega

theorem Date.lt_of_lt_of_le {a b c : Date} (h1 : Date.lt a b) (h2 : Date.le b c) :
    Date.lt a c := by
  cases a; cases b; cases c
  simp only [Date.le, Date.lt, Date.mk.injEq] at h1 h2 ⊢
  rcases h2 with h2 | h2 <;> omega

theorem Date.lt_nextDay (d : Date) : Date.lt d d.nextDay := by
  cases d with
  | mk y m dd =>
    unfold Date.nextDay
    split
    · simp [Date.lt]
    · split <;> simp [Date.lt]

theorem Date.le_addDays (n : ℕ) (d : Date) : Date.le d (d.addDays n) := by
  induction n generalizing d with
  | zero => exact Or.inr rfl
  | succ k ih =>
    show Date.le d ((d.nextDay).addDays k)
    rcases ih d.nextDay with h | h
    · exact Or.inl (Date.lt_of_lt_of_le (Date.lt_nextDay d) (Or.inl h))
    · exact Or.inl (Date.lt_of_lt_of_le (Date.lt_nextDay d) (Or.inr h))

theorem Date.lt_addDays (n : ℕ) (d : Date) (h : 1 ≤ n) : Date.lt d (d.addDays n) := by
  cases n with
  | zero => omega
  | succ k =>
    show Date.lt d ((d.nextDay).addDays k)
    exact Date.lt_of_lt_of_le (Date.lt_nextDay d) (Date.le_addDays k d.nextDay)

/-! ### Helper computations for the calendar policy -/

theorem prevDay_addMonthsFirst_one (y m : ℕ) (h1 : 1 ≤ m) (h2 : m ≤ 12) :
    (addMonthsFirst y m 1).prevDay = ⟨y, m, daysInMonth y m⟩ := by
  interval_cases m <;> simp [addMonthsFirst, Date.prevDay, daysInMonth]

/-- Specialization of the calendar policy at frequency `'daily'`. -/
theorem gnrd_daily (d : Date) :
    get_next_rebalance_date d "daily" = some (d.addDays 1) := rfl

/-- Specialization at `'weekly'`: move forward to the next Friday. -/
theorem gnrd_weekly (d : Date) :
    get_next_rebalance_date d "weekly" =
      some (d.addDays (if (((4 : ℤ) - (d.weekday : ℤ)) % 7).toNat = 0 then 7
        else (((4 : ℤ) - (d.weekday : ℤ)) % 7).toNat)) := rfl

/-- Specialization at `'monthly'`. -/
theorem gnrd_monthly (d : Date) :
    get_next_rebalance_date d "monthly" =
      if Date.le (addMonthsFirst d.year d.month 1).prevDay d then
        some (addMonthsFirst d.year d.month 2).prevDay
      else some (addMonthsFirst d.year d.month 1).prevDay := rfl

/-- Specialization at `'quarterly'`. -/
theorem gnrd_quarterly (d : Date) :
    get_next_rebalance_date d "quarterly" =
      (if Date.le (addMonthsFirst d.year (((d.month - 1) / 3 + 1) * 3) 1).prevDay d then
        some (addMonthsFirst
          (if (d.month - 1) / 3 + 1 + 1 > 4 then (1, d.year + 1)
            else ((d.month - 1) / 3 + 1 + 1, d.year)).2
          ((if (d.month - 1) / 3 + 1 + 1 > 4 then (1, d.year + 1)
            else ((d.month - 1) / 3 + 1 + 1, d.year)).1 * 3) 1).prevDay
      else some (addMonthsFirst d.year (((d.month - 1) / 3 + 1) * 3) 1).prevDay) := rfl

/-- Specialization at `'annually'`. -/
theorem gnrd_annually (d : Date) :
    get_next_rebalance_date d "annually" =
      if Date.le ⟨d.year, 12, 31⟩ d then some ⟨d.year + 1, 12, 31⟩
      else some (⟨d.year, 12, 31⟩ : Date) := rfl

/-- Core strict-progress lemma: whatever date `get_next_rebalance_date`
returns is chronologically after its input. -/
theorem get_next_rebalance_date_lt {d d' : Date} {f : String}
    (hv : ValidDate d) (h : get_next_rebalance_date d f = some d') :
    Date.lt d d' := by
  obtain ⟨y, m, day⟩ := d
  obtain ⟨hy, hm1, hm2, hd1, hd2⟩ := hv
  simp only at hm1 hm2
  by_cases h1 : f = "daily"
  · subst h1
    rw [gnrd_daily] at h
    cases Option.some.inj h
    exact Date.lt_addDays 1 _ (le_refl 1)
  by_cases h2 : f = "weekly"
  · subst h2
    rw [gnrd_weekly] at h
    cases Option.some.inj h
    apply Date.lt_addDays
    split <;> omega
  by_cases h3 : f = "monthly"
  · subst h3
    rw [gnrd_monthly] at h
    split_ifs at h with hc
    · cases Option.some.inj h
      interval_cases m <;>
        simp [addMonthsFirst, Date.prevDay, daysInMonth, Date.lt]
    · cases Option.some.inj h
      exact Date.not_le hc
  by_cases h4 : f = "quarterly"
  · subst h4
    rw [gnrd_quarterly] at h
    by_cases hc : Date.le (addMonthsFirst ({ year := y, month := m, day := day } : Date).year
        (((({ year := y, month := m, day := day } : Date).month - 1) / 3 + 1) * 3) 1).prevDay
        ({ year := y, month := m, day := day } : Date)
    · rw [if_pos hc] at h
      cases Option.some.inj h
      interval_cases m <;>
        simp [addMonthsFirst, Date.prevDay, daysInMonth, Date.lt]
    · rw [if_neg hc] at h
      cases Option.some.inj h
      exact Date.not_le hc
  by_cases h5 : f = "annually"
  · subst h5
    rw [gnrd_annually] at h
    split_ifs at h with hc
    · cases Option.some.inj h
      simp [Date.lt]
    · cases Option.some.inj h
      exact Date.not_le hc
  · simp only [get_next_rebalance_date, if_neg h1, if_neg h2, if_neg h3, if_neg h4,
      if_neg h5] at h
    exact Option.noConfusion h

/-- The five active frequencies always return a date. -/
theorem get_next_rebalance_date_isSome (d : Date) (f : String)
    (hf : f = "daily" ∨ f = "weekly" ∨ f = "monthly" ∨ f = "quarterly" ∨ f = "annually") :
    (get_next_rebalance_date d f).isSome = true := by
  rcases hf with rfl | rfl | rfl | rfl | rfl
  · rw [gnrd_daily]; rfl
  · rw [gnrd_weekly]; rfl
  · rw [gnrd_monthly]; split <;> rfl
  · rw [gnrd_quarterly]; split <;> rfl
  · rw [gnrd_annually]; split <;> rfl

/-- Frequency `'none'` never schedules an auto rebalance. -/
theorem gnrd_none (d : Date) : get_next_rebalance_date d "none" = none := rfl

/-! ### Period indices for C6 -/

/-- Index of the month period a date lies in. -/
def monthIndex (d : Date) : ℕ := 12 * d.year + (d.month - 1)

/-- Index of the quarter period a date lies in. -/
def quarterIndex (d : Date) : ℕ := 4 * d.year + (d.month - 1) / 3

/-- The date is the last calendar day of its month. -/
def IsMonthEnd (d : Date) : Prop :=
  1 ≤ d.month ∧ d.month ≤ 12 ∧ d.day = daysInMonth d.year d.month

/-- The date is the last calendar day of its quarter. -/
def IsQuarterEnd (d : Date) : Prop :=
  (d.month = 3 ∨ d.month = 6 ∨ d.month = 9 ∨ d.month = 12) ∧
    d.day = daysInMonth d.year d.month

theorem monthly_shape {d r : Date} (hv : ValidDate d)
    (h : get_next_rebalance_date d "monthly" = some r) : IsMonthEnd r := by
  obtain ⟨y, m, day⟩ := d
  obtain ⟨hy, hm1, hm2, hd1, hd2⟩ := hv
  simp only at hm1 hm2
  rw [gnrd_monthly] at h
  split_ifs at h with hc <;> cases Option.some.inj h <;>
    interval_cases m <;>
      simp [addMonthsFirst, Date.prevDay, daysInMonth, IsMonthEnd]

theorem monthly_step {r : Date} (hr : IsMonthEnd r) :
    ∃ r', get_next_rebalance_date r "monthly" = some r' ∧
      monthIndex r' = monthIndex r + 1 := by
  obtain ⟨y, m, day⟩ := r
  obtain ⟨hm1, hm2, hday⟩ := hr
  simp only at hm1 hm2 hday
  subst hday
  rw [gnrd_monthly]
  have hc : Date.le (addMonthsFirst ({ year := y, month := m, day := daysInMonth y m } : Date).year
      ({ year := y, month := m, day := daysInMonth y m } : Date).month 1).prevDay
      ({ year := y, month := m, day := daysInMonth y m } : Date) := by
    rw [show ({ year := y, month := m, day := daysInMonth y m } : Date).year = y from rfl,
      show ({ year := y, month := m, day := daysInMonth y m } : Date).month = m from rfl,
      prevDay_addMonthsFirst_one y m hm1 hm2]
    exact Or.inr rfl
  rw [if_pos hc]
  refine ⟨_, rfl, ?_⟩
  interval_cases m <;>
    simp [addMonthsFirst, Date.prevDay, daysInMonth, monthIndex] <;> omega

theorem quarterly_shape {d r : Date} (hv : ValidDate d)
    (h : get_next_rebalance_date d "quarterly" = some r) : IsQuarterEnd r := by
  obtain ⟨y, m, day⟩ := d
  obtain ⟨hy, hm1, hm2, hd1, hd2⟩ := hv
  simp only at hm1 hm2
  rw [gnrd_quarterly] at h
  split_ifs at h with hc <;> cases Option.some.inj h <;>
    interval_cases m <;>
      simp [addMonthsFirst, Date.prevDay, daysInMonth, IsQuarterEnd]

theorem quarterly_step {r : Date} (hr : IsQuarterEnd r) :
    ∃ r', get_next_rebalance_date r "quarterly" = some r' ∧
      quarterIndex r' = quarterIndex r + 1 := by
  obtain ⟨y, m, day⟩ := r
  obtain ⟨hq, hday⟩ := hr
  simp only at hq hday
  subst hday
  rw [gnrd_quarterly]
  have hqem : (((({ year := y, month := m, day := daysInMonth y m } : Date).month - 1) / 3 + 1) * 3) = m := by
    rcases hq with rfl | rfl | rfl | rfl <;> simp
  rw [hqem]
  have hc : Date.le (addMonthsFirst ({ year := y, month := m, day := daysInMonth y m } : Date).year m 1).prevDay
      ({ year := y, month := m, day := daysInMonth y m } : Date) := by
    rw [show ({ year := y, month := m, day := daysInMonth y m } : Date).year = y from rfl,
      prevDay_addMonthsFirst_one y m (by omega) (by rcases hq with rfl | rfl | rfl | rfl <;> omega)]
    exact Or.inr rfl
  rw [if_pos hc]
  refine ⟨_, rfl, ?_⟩
  rcases hq with rfl | rfl | rfl | rfl <;>
    simp [addMonthsFirst, Date.prevDay, daysInMonth, quarterIndex] <;> omega

theorem annually_shape {d r : Date} (hv : ValidDate d)
    (h : get_next_rebalance_date d "annually" = some r) :
    r.month = 12 ∧ r.day = 31 := by
  obtain ⟨y, m, day⟩ := d
  rw [gnrd_annually] at h
  split_ifs at h with hc <;> cases Option.some.inj h <;> exact ⟨rfl, rfl⟩

theorem annually_step {r : Date} (hr : r.month = 12 ∧ r.day = 31) :
    ∃ r', get_next_rebalance_date r "annually" = some r' ∧
      r'.year = r.year + 1 := by
  obtain ⟨y, m, day⟩ := r
  obtain ⟨h12, h31⟩ := hr
  simp only at h12 h31
  subst h12; subst h31
  refine ⟨⟨y + 1, 12, 31⟩, ?_, rfl⟩
  rw [gnrd_annually]
  simp [Date.le]

/-- Claim C5: for every valid date `d` and every frequency in
{none, daily, weekly, monthly, quarterly, annually}, any date returned by
`get_next_rebalance_date d f` is strictly after `d` (never equal, never
before); the five active frequencies do return a date, and `'none'`
returns null (so it never returns a date on or before `d`). -/
theorem claim_c5_next_rebalance_strictly_after (d : Date) (f : String) (hv : ValidDate d) :
    (∀ d', get_next_rebalance_date d f = some d' → Date.lt d d') ∧
    ((f = "daily" ∨ f = "weekly" ∨ f = "monthly" ∨ f = "quarterly" ∨ f = "annually") →
      (get_next_rebalance_date d f).isSome = true) ∧
    (f = "none" → get_next_rebalance_date d f = none) :=
  ⟨fun _ h => get_next_rebalance_date_lt hv h,
   fun hf => get_next_rebalance_date_isSome d f hf,
   fun hf => by subst hf; exact gnrd_none d⟩

/-- Witness for C5 at the month-end boundary 2024-01-31 (leap February). -/
theorem claim_c5_witness : Date.lt ⟨2024, 1, 31⟩ ⟨2024, 2, 29⟩ :=
  (claim_c5_next_rebalance_strictly_after ⟨2024, 1, 31⟩ "monthly" (by decide)).1
    ⟨2024, 2, 29⟩ (by decide)

/-- Claim C6: for monthly/quarterly/annually, applying the policy to the
date it returned yields a date in the immediately following month, quarter
or year respectively — never the same period. -/
theorem claim_c6_period_advances (d : Date) (hv : ValidDate d) :
    (∀ r r', get_next_rebalance_date d "monthly" = some r →
        get_next_rebalance_date r "monthly" = some r' →
        monthIndex r' = monthIndex r + 1) ∧
    (∀ r r', get_next_rebalance_date d "quarterly" = some r →
        get_next_rebalance_date r "quarterly" = some r' →
        quarterIndex r' = quarterIndex r + 1) ∧
    (∀ r r', get_next_rebalance_date d "annually" = some r →
        get_next_rebalance_date r "annually" = some r' →
        r'.year = r.year + 1) := by
  refine ⟨?_, ?_, ?_⟩
  · intro r r' h1 h2
    obtain ⟨r'', h2', hidx⟩ := monthly_step (monthly_shape hv h1)
    rw [h2'] at h2
    cases Option.some.inj h2
    exact hidx
  · intro r r' h1 h2
    obtain ⟨r'', h2', hidx⟩ := quarterly_step (quarterly_shape hv h1)
    rw [h2'] at h2
    cases Option.some.inj h2
    exact hidx
  · intro r r' h1 h2
    obtain ⟨r'', h2', hidx⟩ := annually_step (annually_shape hv h1)
    rw [h2'] at h2
    cases Option.some.inj h2
    exact hidx

/-- Witness for C6: from 2024-01-15 the monthly policy reaches 2024-01-31,
and one more application lands in February (the next month). -/
theorem claim_c6_witness : monthIndex ⟨2024, 2, 29⟩ = monthIndex ⟨2024, 1, 31⟩ + 1 :=
  (claim_c6_period_advances ⟨2024, 1, 15⟩ (by decide)).1
    ⟨2024, 1, 31⟩ ⟨2024, 2, 29⟩ (by decide) (by decide)

/-! ## Portfolio settings model (src/backtest.py lines 82-112) -/

/-- A settings dict from the settings history: the optional
`'auto_rebalance'` key (a frequency string) plus the remaining
ticker-weight entries, in dict (insertion) order.  An absent
`auto_rebalance` field together with an empty weights list models the
empty Python dict `{}` (which is falsy). -/
structure Setting where
  auto_rebalance : Option String
  weights : List (String × ℚ)
deriving DecidableEq

/-- Python truthiness of the settings dict: `{}` is falsy. -/
def Setting.nonempty (s : Setting) : Bool :=
  s.auto_rebalance.isSome || !s.weights.isEmpty

/-- `settings.get('auto_rebalance', 'none')`. -/
def Setting.frequency (s : Setting) : String := s.auto_rebalance.getD "none"

/-- `settings_history[date_str]` (dict lookup by key). -/
def histLookup (hist : List (Date × Setting)) (d : Date) : Option Setting :=
  match hist with
  | [] => none
  | (k, v) :: rest => if k = d then some v else histLookup rest d

/-- Among already-filtered applicable entries, keep the one a stable
ascending sort by date would put last (greatest date; on equal dates the
later list entry wins), as `applicable_dates.sort(...); [-1]` does. -/
def pickLatest : Option (Date × Setting) → List (Date × Setting) → Option (Date × Setting)
  | acc, [] => acc
  | none, p :: rest => pickLatest (some p) rest
  | some q, p :: rest => pickLatest (if Date.le q.1 p.1 then some p else some q) rest

/-- Embedding of `find_portfolio_settings_for_date(settings_history,
current_date)` (src/backtest.py lines 82-97): the latest entry whose date
is ≤ `current_date`, or `None`. -/
def find_portfolio_settings_for_date (hist : List (Date × Setting)) (current_date : Date) :
    Option Setting :=
  (pickLatest none (hist.filter (fun p => decide (Date.le p.1 current_date)))).map Prod.snd

/-- Embedding of `prepare_tickers_weights(settings, ...)` (src/backtest.py
lines 101-112).  The dict comprehension stripping the `'auto_rebalance'`
key corresponds to projecting out the `weights` field; the `ValueError`
becomes an `Except.error`. -/
def prepare_tickers_weights (settings : Option Setting) :
    Except String (List (String × ℚ)) :=
  match settings with
  | none => Except.ok []
  | some s =>
    let tickers_weights := s.weights
    let total_weight := (tickers_weights.map Prod.snd).sum
    if total_weight > 1 then Except.error "Sum of weights > 1.0"
    else Except.ok tickers_weights

/-! ## Allocator (src/backtest.py lines 116-132, rebalance_portfolio) -/

/-- One iteration of the allocation loop over `tickers_weights.items()`:
note the allocation is `cash * weight` with the *running* cash, and `//`
on positive floats is `Int.floor` of the quotient. -/
def rebalanceStep (price_row : String → Option ℚ) (columns : List String)
    (hc : (String → ℚ) × ℚ) (tw : String × ℚ) : (String → ℚ) × ℚ :=
  if columns.contains tw.1 then
    match price_row tw.1 with
    | some px =>
      let alloc := hc.2 * tw.2
      let shares : ℤ := ⌊alloc / px⌋
      let cost : ℚ := (shares : ℚ) * px
      (Function.update hc.1 tw.1 (shares : ℚ), hc.2 - cost)
    | none => hc
  else hc

/-- Embedding of `rebalance_portfolio(portfolio_value, price_row,
tickers_weights, columns)`: holdings start at zero for every column and
cash at the full portfolio value. -/
def rebalance_portfolio (portfolio_value : ℚ) (price_row : String → Option ℚ)
    (tickers_weights : List (String × ℚ)) (columns : List String) :
    (String → ℚ) × ℚ :=
  tickers_weights.foldl (rebalanceStep price_row columns) (fun _ => 0, portfolio_value)

/-! ## Simulation loop state (src/backtest.py lines 135-244, backtest_portfolio) -/

/-- The mutable locals of `backtest_portfolio`. -/
structure PState where
  holdings : String → ℚ
  cash : ℚ
  rebalanceCount : ℕ
  currentFrequency : String
  nextAutoRebalanceDate : Option Date
  lastSettingApplied : Option Date

/-- Lines 147-179: state after the initial-allocation block and the
`last_setting_applied` initialization, before the daily loop.  Note the
Python truthiness test `if initial_settings:` skips the whole block for
`None` and for an empty settings dict. -/
def applyInitial (hist : List (Date × Setting)) (priceData : Date → String → Option ℚ)
    (columns : List String) (initial_capital : ℚ) (first_day : Date) :
    Except String PState :=
  let base : PState :=
    { holdings := fun _ => 0, cash := initial_capital, rebalanceCount := 0,
      currentFrequency := "none", nextAutoRebalanceDate := none,
      lastSettingApplied := none }
  let afterInit : Except String PState :=
    match find_portfolio_settings_for_date hist first_day with
    | some s =>
      if s.nonempty then
        match prepare_tickers_weights (some s) with
        | Except.error e => Except.error e
        | Except.ok tickers_weights =>
          let hc := rebalance_portfolio initial_capital (priceData first_day)
            tickers_weights columns
          Except.ok
            { holdings := hc.1, cash := hc.2, rebalanceCount := 1,
              currentFrequency := s.frequency,
              nextAutoRebalanceDate := get_next_rebalance_date first_day s.frequency,
              lastSettingApplied := none }
      else Except.ok base
    | none => Except.ok base
  match afterInit with
  | Except.error e => Except.error e
  | Except.ok st =>
    Except.ok
      { st with
          lastSettingApplied :=
            if (histLookup hist first_day).isSome then some first_day else none }

/-- Lines 185-196: forced-rebalance detection — the new setting to apply
today, if today's date keys an entry not yet applied. -/
def forcedSetting (hist : List (Date × Setting)) (st : PState) (d : Date) : Option Setting :=
  match histLookup hist d with
  | some s => if st.lastSettingApplied = some d then none else some s
  | none => none

/-- Lines 191-196: bookkeeping performed when a forced rebalance is
detected (mark applied; on a frequency change adopt it and invalidate the
next scheduled date). -/
def noteForced (st : PState) (d : Date) : Option Setting → PState
  | some s =>
    if s.frequency ≠ st.currentFrequency then
      { st with
          lastSettingApplied := some d, currentFrequency := s.frequency,
          nextAutoRebalanceDate := none }
    else { st with lastSettingApplied := some d }
  | none => st

/-- Lines 198-201: auto-rebalance detection (`current_day >= next_date`). -/
def autoToday (st : PState) (d : Date) : Bool :=
  match st.nextAutoRebalanceDate with
  | some a => decide (Date.le a d)
  | none => false

/-- Lines 203-210: today's valuation — cash plus shares × price over the
holdings dict (columns order), skipping missing (NaN) prices and zero
positions. -/
def dailyValuation (price_row : String → Option ℚ) (columns : List String)
    (holdings : String → ℚ) (cash : ℚ) : ℚ :=
  columns.foldl (fun acc t =>
    match price_row t with
    | some px => if holdings t ≠ 0 then acc + holdings t * px else acc
    | none => acc) cash

/-- Lines 182-242: one iteration of the daily loop, returning the new
state and the value appended to the daily series. -/
def dayStep (hist : List (Date × Setting)) (priceData : Date → String → Option ℚ)
    (columns : List String) (st : PState) (current_day : Date) :
    Except String (PState × ℚ) :=
  let fs := forcedSetting hist st current_day
  let st1 := noteForced st current_day fs
  let auto := autoToday st1 current_day
  let price_row := priceData current_day
  let portfolio_value := dailyValuation price_row columns st1.holdings st1.cash
  if fs.isSome || auto then
    match
      (match fs with
       | some s => prepare_tickers_weights (some s)
       | none => prepare_tickers_weights
           (find_portfolio_settings_for_date hist current_day)) with
    | Except.error e => Except.error e
    | Except.ok tickers_weights =>
      let hc := rebalance_portfolio portfolio_value price_row tickers_weights columns
      Except.ok
        ({ st1 with
             holdings := hc.1, cash := hc.2,
             rebalanceCount := st1.rebalanceCount + 1,
             nextAutoRebalanceDate :=
               if st1.currentFrequency ≠ "none" then
                 get_next_rebalance_date current_day st1.currentFrequency
               else none }, portfolio_value)
  else Except.ok (st1, portfolio_value)

/-- The daily `for current_day in all_dates` loop, accumulating the daily
value series (in reverse) and threading the state. -/
def backtestLoop (hist : List (Date × Setting)) (priceData : Date → String → Option ℚ)
    (columns : List String) (st : PState) (vals : List (Date × ℚ)) :
    List Date → Except String (List (Date × ℚ) × ℕ)
  | [] => Except.ok (vals.reverse, st.rebalanceCount)
  | d :: ds =>
    match dayStep hist priceData columns st d with
    | Except.error e => Except.error e
    | Except.ok (st', v) => backtestLoop hist priceData columns st' ((d, v) :: vals) ds

/-- Embedding of `backtest_portfolio(portfolio_config, price_data,
all_dates, initial_capital)`: the daily value series (aligned to
`all_dates`) and the total rebalance count.  An empty date list raises
(Python would fail on `all_dates[0]`). -/
def backtest_portfolio (hist : List (Date × Setting))
    (priceData : Date → String → Option ℚ) (columns : List String)
    (all_dates : List Date) (initial_capital : ℚ) :
    Except String (List (Date × ℚ) × ℕ) :=
  match all_dates with
  | [] => Except.error "all_dates is empty"
  | first_day :: _ =>
    match applyInitial hist priceData columns initial_capital first_day with
    | Except.error e => Except.error e
    | Except.ok st0 => backtestLoop hist priceData columns st0 [] all_dates

/-! ## Summary statistics (src/utils.py) -/

/-- `equity_curve.pct_change().dropna()`: day-over-day percentage returns
(the leading NaN of `pct_change` dropped).  For a curve of positive values
every remaining entry is finite, matching the float semantics. -/
def dailyReturns (equity_curve : List ℚ) : List ℚ :=
  (equity_curve.tail.zip equity_curve).map (fun p => p.1 / p.2 - 1)

/-- Arithmetic mean of a list (pandas `.mean()` on a nonempty series). -/
def ratMean (xs : List ℚ) : ℚ := xs.sum / xs.length

/-- Pandas `.std()` squared: the sample variance with `ddof=1`; `none`
models the NaN produced for fewer than two observations. -/
def sampleVariance (xs : List ℚ) : Option ℚ :=
  if xs.length < 2 then none
  else some ((xs.map (fun x => (x - ratMean xs) ^ 2)).sum / ((xs.length : ℚ) - 1))

/-- Embedding of `compute_sharpe_ratio(equity_curve, periods_per_year=252)`
(src/utils.py lines 14-22).  The float square root (`std` is the square
root of the sample variance, and the annualizer is `np.sqrt(252)`) is
irrational, so the embedding is parametrized by an arbitrary square-root
function `sqrtq`; the guard property is proved for every such function.
`none` models a NaN result: with fewer than two returns the sample std is
NaN, `NaN == 0` is false, and the division then yields NaN. -/
def compute_sharpe_ratio (sqrtq : ℚ → ℚ) (equity_curve : List ℚ)
    (periods_per_year : ℚ) : Option ℚ :=
  let daily_returns := dailyReturns equity_curve
  match sampleVariance daily_returns with
  | none => none
  | some v =>
    let std := sqrtq v
    if std = 0 then some 0
    else some (ratMean daily_returns / std * sqrtq periods_per_year)

/-- Whether an `Except` value is the error case. -/
def exceptIsError {ε α : Type} : Except ε α → Bool
  | Except.error _ => true
  | Except.ok _ => false

/-! ## Claim C8: the weight validator -/

/-- Claim C8: `prepare_tickers_weights` raises the invalid-weights error
iff the sum of the ticker weights (the frequency tag excluded) strictly
exceeds 1.0, under exact comparison (a sum of exactly 1.0 is accepted);
a null setting yields the empty mapping. -/
theorem claim_c8_weight_validator (s : Setting) :
    ( exceptIsError (prepare_tickers_weights (some s)) = true ↔
      (s.weights.map Prod.snd).sum > 1) ∧
    ((s.weights.map Prod.snd).sum ≤ 1 →
      prepare_tickers_weights (some s) = Except.ok s.weights) ∧
    prepare_tickers_weights none = Except.ok [] := by
  refine ⟨?_, ?_, rfl⟩
  · by_cases h : (s.weights.map Prod.snd).sum > 1
    · simp [prepare_tickers_weights, if_pos h, exceptIsError, h]
    · simp [prepare_tickers_weights, if_neg h, exceptIsError, h]
  · intro h
    have h' : ¬ (s.weights.map Prod.snd).sum > 1 := not_lt.mpr h
    simp [prepare_tickers_weights, if_neg h']

/-- Witness for C8: a sum of 1.0000001 is rejected and a sum of exactly
1.0 is accepted. -/
theorem claim_c8_witness :
    exceptIsError (prepare_tickers_weights
      (some ⟨none, [("SPY", 10000001 / 10000000)]⟩)) = true ∧
    prepare_tickers_weights (some ⟨none, [("SPY", 1)]⟩) =
      Except.ok [("SPY", 1)] :=
  ⟨(claim_c8_weight_validator ⟨none, [("SPY", 10000001 / 10000000)]⟩).1.mpr (by norm_num),
   (claim_c8_weight_validator ⟨none, [("SPY", 1)]⟩).2.1 (by norm_num)⟩

/-! ## Claim C9: the Sharpe-ratio zero-std guard -/

/-- Claim C9: if the sample standard deviation of the day-over-day
percentage returns is exactly zero (`sqrtq v = 0` where `v` is the sample
variance), `compute_sharpe_ratio` returns exactly 0 — the division by the
standard deviation is guarded and not performed. -/
theorem claim_c9_sharpe_zero_std_guard (sqrtq : ℚ → ℚ) (equity_curve : List ℚ)
    (periods_per_year : ℚ) (v : ℚ)
    (hvar : sampleVariance (dailyReturns equity_curve) = some v)
    (hstd : sqrtq v = 0) :
    compute_sharpe_ratio sqrtq equity_curve periods_per_year = some 0 := by
  simp only [compute_sharpe_ratio]
  rw [hvar]
  simp [hstd]

/-- Witness for C9: a constant equity curve has zero variance and Sharpe
ratio exactly 0. -/
theorem claim_c9_witness : compute_sharpe_ratio id [1, 1, 1] 252 = some 0 :=
  claim_c9_sharpe_zero_std_guard id [1, 1, 1] 252 0
    (by norm_num [sampleVariance, dailyReturns, ratMean, List.zip]) rfl

/-! ## Claim C1: the allocator -/

/-- Counterexample for C1 as stated: with total value 100, price 10 for
both symbols and weights 0.5/0.5, the symbol processed second receives
`floor((remaining cash) * w / px) = 2` shares, not
`floor(total_value * w / px) = 5`, and swapping the iteration order of the
weights mapping changes the holdings. -/
theorem claim_c1_counterexample :
    (rebalance_portfolio 100 (fun _ => some 10)
      [("A", (1 : ℚ)/2), ("B", (1 : ℚ)/2)] ["A", "B"]).1 "B" = 2 ∧
    (rebalance_portfolio 100 (fun _ => some 10)
      [("B", (1 : ℚ)/2), ("A", (1 : ℚ)/2)] ["A", "B"]).1 "B" = 5 ∧
    ((2 : ℚ) ≠ 5) ∧
    ((2 : ℚ) ≠ ((⌊((100 : ℚ) * ((1 : ℚ)/2)) / 10⌋ : ℤ) : ℚ)) := by
  refine ⟨?_, ?_, by norm_num, by norm_num⟩ <;>
    norm_num [rebalance_portfolio, rebalanceStep, List.foldl, Function.update] <;>
    decide

theorem foldl_rebalanceStep_apply_ne (row : String → Option ℚ) (cols : List String)
    (tws : List (String × ℚ)) (hc : (String → ℚ) × ℚ) (t : String)
    (h : ∀ p ∈ tws, p.1 ≠ t) :
    (tws.foldl (rebalanceStep row cols) hc).1 t = hc.1 t := by
  induction tws generalizing hc with
  | nil => rfl
  | cons p rest ih =>
    rw [List.foldl_cons, ih _ (fun q hq => h q (List.mem_cons_of_mem p hq))]
    have hpt : t ≠ p.1 := Ne.symm (h p (List.mem_cons_self p rest))
    unfold rebalanceStep
    split
    · cases hrow : row p.1 with
      | some px => exact Function.update_noteq hpt _ _
      | none => rfl
    · rfl

/-- Claim C1 amended: in `rebalance_portfolio` the cash allocated to a
symbol is `(remaining cash so far) * weight` — the running cash after the
earlier purchases, not the total value — with
`shares = floor(allocation / price)` and `shares * price` deducted; hence
the result can depend on the iteration order of the weights mapping. -/
theorem claim_c1_amended (pv : ℚ) (row : String → Option ℚ) (cols : List String)
    (tws1 tws2 : List (String × ℚ)) (t : String) (w px : ℚ)
    (hmem : cols.contains t = true) (hpx : row t = some px)
    (hlater : ∀ p ∈ tws2, p.1 ≠ t) :
    rebalance_portfolio pv row (tws1 ++ (t, w) :: tws2) cols =
      tws2.foldl (rebalanceStep row cols)
        (Function.update (tws1.foldl (rebalanceStep row cols) (fun _ => 0, pv)).1 t
          ((⌊(tws1.foldl (rebalanceStep row cols) (fun _ => 0, pv)).2 * w / px⌋ : ℤ) : ℚ),
         (tws1.foldl (rebalanceStep row cols) (fun _ => 0, pv)).2 -
           ((⌊(tws1.foldl (rebalanceStep row cols) (fun _ => 0, pv)).2 * w / px⌋ : ℤ) : ℚ) * px) ∧
    (rebalance_portfolio pv row (tws1 ++ (t, w) :: tws2) cols).1 t =
      ((⌊(tws1.foldl (rebalanceStep row cols) (fun _ => 0, pv)).2 * w / px⌋ : ℤ) : ℚ) := by
  have hstep : rebalanceStep row cols
      (tws1.foldl (rebalanceStep row cols) (fun _ => 0, pv)) (t, w) =
      (Function.update (tws1.foldl (rebalanceStep row cols) (fun _ => 0, pv)).1 t
        ((⌊(tws1.foldl (rebalanceStep row cols) (fun _ => 0, pv)).2 * w / px⌋ : ℤ) : ℚ),
       (tws1.foldl (rebalanceStep row cols) (fun _ => 0, pv)).2 -
         ((⌊(tws1.foldl (rebalanceStep row cols) (fun _ => 0, pv)).2 * w / px⌋ : ℤ) : ℚ) * px) := by
    unfold rebalanceStep
    rw [if_pos hmem, hpx]
  have h1 : rebalance_portfolio pv row (tws1 ++ (t, w) :: tws2) cols =
      tws2.foldl (rebalanceStep row cols)
        (Function.update (tws1.foldl (rebalanceStep row cols) (fun _ => 0, pv)).1 t
          ((⌊(tws1.foldl (rebalanceStep row cols) (fun _ => 0, pv)).2 * w / px⌋ : ℤ) : ℚ),
         (tws1.foldl (rebalanceStep row cols) (fun _ => 0, pv)).2 -
           ((⌊(tws1.foldl (rebalanceStep row cols) (fun _ => 0, pv)).2 * w / px⌋ : ℤ) : ℚ) * px) := by
    unfold rebalance_portfolio
    rw [List.foldl_append, List.foldl_cons, hstep]
  refine ⟨h1, ?_⟩
  rw [h1, foldl_rebalanceStep_apply_ne row cols tws2 _ t hlater]
  exact Function.update_same t _ _

/-- Witness for C1 amended: the second symbol's shares come from the
reduced cash (50 remaining after symbol A is bought at weight 0.5):
floor(50 * 0.5 / 10) = 2. -/
theorem claim_c1_witness :
    (rebalance_portfolio 100 (fun _ => some 10)
      ([("A", (1 : ℚ)/2)] ++ ("B", (1 : ℚ)/2) :: []) ["A", "B"]).1 "B" = ((2 : ℤ) : ℚ) :=
  ((claim_c1_amended 100 (fun _ => some 10) ["A", "B"] [("A", (1 : ℚ)/2)] []
    "B" ((1 : ℚ)/2) 10 (by decide) rfl (by simp)).2).trans
    (by norm_num [List.foldl, rebalanceStep, Function.update])

/-! ## Claim C2: the rebalance count -/

/-- Counterexample for C2 as stated: an empty settings history over one
simulated day yields rebalance count 0, not ≥ 1 — the `if initial_settings:`
truthiness guard skips both the no-op allocation and the counter. -/
theorem claim_c2_counterexample :
    backtest_portfolio [] (fun _ _ => none) ["A"] [⟨2024, 1, 2⟩] 1000 =
      Except.ok ([(⟨2024, 1, 2⟩, 1000)], 0) ∧ ¬ (1 ≤ (0 : ℕ)) :=
  ⟨rfl, by decide⟩

theorem find_eq_none_of_no_applicable (hist : List (Date × Setting)) (d0 : Date)
    (h : ∀ p ∈ hist, ¬ Date.le p.1 d0) :
    find_portfolio_settings_for_date hist d0 = none := by
  unfold find_portfolio_settings_for_date
  have hf : hist.filter (fun p => decide (Date.le p.1 d0)) = [] := by
    rw [List.filter_eq_nil]
    intro p hp
    simpa using h p hp
  rw [hf]
  rfl

theorem dailyValuation_cons (row : String → Option ℚ) (t : String) (rest : List String)
    (h : String → ℚ) (c : ℚ) :
    dailyValuation row (t :: rest) h c =
      dailyValuation row rest h
        (match row t with
         | some px => if h t ≠ 0 then c + h t * px else c
         | none => c) := by
  unfold dailyValuation
  rw [List.foldl_cons]

theorem dailyValuation_of_zero (row : String → Option ℚ) (cols : List String)
    (h : String → ℚ) (c : ℚ) (hh : ∀ t, h t = 0) :
    dailyValuation row cols h c = c := by
  induction cols generalizing c with
  | nil => rfl
  | cons t rest ih =>
    rw [dailyValuation_cons]
    cases hrow : row t with
    | some px => simp [hh t]; exact ih c
    | none => exact ih c

theorem dayStep_empty_hist (pd : Date → String → Option ℚ) (cols : List String)
    (st : PState) (d : Date) (hh : ∀ t, st.holdings t = 0)
    (hauto : st.nextAutoRebalanceDate = none) :
    dayStep [] pd cols st d = Except.ok (st, st.cash) := by
  simp [dayStep, forcedSetting, histLookup, noteForced, autoToday, hauto,
    dailyValuation_of_zero _ _ _ _ hh]

theorem backtestLoop_empty_hist (pd : Date → String → Option ℚ) (cols : List String)
    (ds : List Date) :
    ∀ st vals, (∀ t, st.holdings t = 0) → st.nextAutoRebalanceDate = none →
    backtestLoop [] pd cols st vals ds =
      Except.ok (vals.reverse ++ ds.map (fun d => (d, st.cash)), st.rebalanceCount) := by
  induction ds with
  | nil => intro st vals hh ha; simp [backtestLoop]
  | cons d ds ih =>
    intro st vals hh ha
    unfold backtestLoop
    rw [dayStep_empty_hist pd cols st d hh ha]
    dsimp only
    rw [ih st ((d, st.cash) :: vals) hh ha]
    simp

/-- Claim C2 amended: the rebalance count can be 0.  A portfolio with no
settings entry effective on or before the first simulated date performs no
initial allocation — zero holdings, the full initial capital as cash, and
zero rebalances counted at initialization (not one; the no-op allocation is
skipped by the truthiness guard).  With an empty settings history the whole
run returns every day's value equal to the initial capital and a rebalance
count of exactly 0. -/
theorem claim_c2_amended :
    (∀ hist pd cols capital d0 st',
      (∀ p ∈ hist, ¬ Date.le p.1 d0) →
      applyInitial hist pd cols capital d0 = Except.ok st' →
      st'.cash = capital ∧ (∀ t, st'.holdings t = 0) ∧ st'.rebalanceCount = 0) ∧
    (∀ pd cols capital d0 ds,
      backtest_portfolio [] pd cols (d0 :: ds) capital =
        Except.ok ((d0 :: ds).map (fun d => (d, capital)), 0)) := by
  constructor
  · intro hist pd cols capital d0 st' hna h
    unfold applyInitial at h
    rw [find_eq_none_of_no_applicable hist d0 hna] at h
    simp only [] at h
    cases h
    exact ⟨rfl, fun t => rfl, rfl⟩
  · intro pd cols capital d0 ds
    have h0 : applyInitial [] pd cols capital d0 = Except.ok
        { holdings := fun _ => 0, cash := capital, rebalanceCount := 0,
          currentFrequency := "none", nextAutoRebalanceDate := none,
          lastSettingApplied := none } := rfl
    unfold backtest_portfolio
    dsimp only
    rw [h0]
    dsimp only
    rw [backtestLoop_empty_hist pd cols (d0 :: ds) _ [] (fun _ => rfl) rfl]
    simp

/-- Witness for C2 amended: with an entry dated after the first day the
initial allocation is skipped (cash stays 1000), and with an empty history
a two-day run returns flat values and rebalance count 0. -/
theorem claim_c2_witness :
    (1000 : ℚ) = 1000 ∧
    backtest_portfolio [] (fun _ _ => some (5 : ℚ)) ["A"] [⟨2024, 1, 2⟩, ⟨2024, 1, 3⟩] 1000 =
      Except.ok ([(⟨2024, 1, 2⟩, 1000), (⟨2024, 1, 3⟩, 1000)], 0) :=
  ⟨(claim_c2_amended.1 [(⟨2024, 1, 5⟩, ⟨none, []⟩)] (fun _ _ => none) ["A"] 1000 ⟨2024, 1, 2⟩
      _ (by decide) rfl).1,
   claim_c2_amended.2 (fun _ _ => some 5) ["A"] 1000 ⟨2024, 1, 2⟩ [⟨2024, 1, 3⟩]⟩

/-! ## Claim C7: the daily valuation -/

/-- Counterexample for C7 as stated: 10 shares of "A" are bought at 100 on
day one; on day two the price of "A" is missing (NaN).  The value appended
for day two is 0 — the instrument is skipped entirely — not
`cash + shares * (last valid price) = 10 * 100 = 1000` as the claim
requires. -/
theorem claim_c7_counterexample :
    backtest_portfolio [(⟨2024, 1, 2⟩, ⟨some "none", [("A", 1)]⟩)]
      (fun d t => if d = ⟨2024, 1, 2⟩ ∧ t = "A" then some 100 else none)
      ["A"] [⟨2024, 1, 2⟩, ⟨2024, 1, 3⟩] 1000 =
      Except.ok ([(⟨2024, 1, 2⟩, 1000), (⟨2024, 1, 3⟩, 0)], 1) ∧
    (0 : ℚ) ≠ 0 + 10 * 100 := by
  constructor
  · norm_num [backtest_portfolio, applyInitial, backtestLoop, dayStep, forcedSetting,
      noteForced, autoToday, dailyValuation, find_portfolio_settings_for_date, pickLatest,
      histLookup, prepare_tickers_weights, rebalance_portfolio, rebalanceStep,
      Setting.nonempty, Setting.frequency, gnrd_none, Date.le, Date.lt, Function.update,
      List.foldl, List.filter]
  · norm_num

theorem noteForced_holdings (st : PState) (d : Date) (fs : Option Setting) :
    (noteForced st d fs).holdings = st.holdings := by
  cases fs with
  | none => rfl
  | some s =>
    simp only [noteForced]
    split <;> rfl

theorem noteForced_cash (st : PState) (d : Date) (fs : Option Setting) :
    (noteForced st d fs).cash = st.cash := by
  cases fs with
  | none => rfl
  | some s =>
    simp only [noteForced]
    split <;> rfl

theorem dayStep_ok_value (hist : List (Date × Setting)) (pd : Date → String → Option ℚ)
    (cols : List String) (st : PState) (d : Date) (st' : PState) (v : ℚ)
    (h : dayStep hist pd cols st d = Except.ok (st', v)) :
    v = dailyValuation (pd d) cols st.holdings st.cash := by
  simp only [dayStep] at h
  rw [noteForced_holdings, noteForced_cash] at h
  split at h
  · split at h
    · exact Except.noConfusion h
    · cases h
      rfl
  · cases h
    rfl

theorem dailyValuation_eq_sum (row : String → Option ℚ) (cols : List String)
    (h : String → ℚ) (c : ℚ) :
    dailyValuation row cols h c = c +
      (cols.map (fun t =>
        match row t with
        | some px => h t * px
        | none => 0)).sum := by
  induction cols generalizing c with
  | nil => simp [dailyValuation]
  | cons t rest ih =>
    rw [dailyValuation_cons, ih]
    cases hrow : row t with
    | some px =>
      by_cases hz : h t = 0
      · simp [hrow, hz]
      · simp [hrow, hz]
        ring
    | none => simp [hrow]

/-- Claim C7 amended: the value appended for a day equals cash plus the
sum over tracked instruments of shares × price, where an instrument whose
price is missing (NaN) that day contributes zero — it is excluded from the
day's valuation, with no carry-forward of its last valid price. -/
theorem claim_c7_amended (hist : List (Date × Setting)) (pd : Date → String → Option ℚ)
    (cols : List String) (st : PState) (d : Date) (st' : PState) (v : ℚ)
    (h : dayStep hist pd cols st d = Except.ok (st', v)) :
    v = st.cash +
      (cols.map (fun t =>
        match pd d t with
        | some px => st.holdings t * px
        | none => 0)).sum := by
  rw [dayStep_ok_value hist pd cols st d st' v h, dailyValuation_eq_sum]

/-- Witness for C7 amended: a one-column day with a present price of 100
and zero holdings values to cash plus 0 × 100. -/
theorem claim_c7_witness :
    (1000 : ℚ) = 1000 + (["A"].map (fun _ => (0 : ℚ) * 100)).sum :=
  claim_c7_amended [] (fun _ _ => some 100) ["A"]
    { holdings := fun _ => 0, cash := 1000, rebalanceCount := 0,
      currentFrequency := "none", nextAutoRebalanceDate := none,
      lastSettingApplied := none } ⟨2024, 1, 2⟩
    { holdings := fun _ => 0, cash := 1000, rebalanceCount := 0,
      currentFrequency := "none", nextAutoRebalanceDate := none,
      lastSettingApplied := none } 1000 rfl

/-! ## Claim C4: forced/auto trigger interaction -/

theorem noteForced_count (st : PState) (d : Date) (fs : Option Setting) :
    (noteForced st d fs).rebalanceCount = st.rebalanceCount := by
  cases fs with
  | none => rfl
  | some s =>
    simp only [noteForced]
    split <;> rfl

/-- Claim C4: on each simulated day the rebalance counter increases by
exactly 1 when the forced and/or the auto trigger fires (never by 2 when
both fire the same day) and is unchanged with no trigger; when the forced
trigger fires, the rebalance uses the weights of the newly applied setting
from the history — not weights re-derived for the auto trigger — against
that day's pre-rebalance valuation. -/
theorem claim_c4_trigger_interaction (hist : List (Date × Setting))
    (pd : Date → String → Option ℚ) (cols : List String) :
    (∀ st d st' v, dayStep hist pd cols st d = Except.ok (st', v) →
      st'.rebalanceCount = st.rebalanceCount +
        (if ((forcedSetting hist st d).isSome ||
            autoToday (noteForced st d (forcedSetting hist st d)) d) = true
         then 1 else 0)) ∧
    (∀ st d s st' v, forcedSetting hist st d = some s →
      dayStep hist pd cols st d = Except.ok (st', v) →
      ∃ tw, prepare_tickers_weights (some s) = Except.ok tw ∧
        st'.holdings = (rebalance_portfolio v (pd d) tw cols).1 ∧
        st'.cash = (rebalance_portfolio v (pd d) tw cols).2) := by
  constructor
  · intro st d st' v h
    simp only [dayStep] at h
    split at h
    · rename_i hc
      split at h
      · exact Except.noConfusion h
      · cases h
        simp [noteForced_count, hc]
    · rename_i hc
      cases h
      simp only [Bool.not_eq_true] at hc
      simp [noteForced_count, hc]
  · intro st d s st' v hfs h
    simp only [dayStep] at h
    rw [hfs] at h
    simp only [Option.isSome_some, Bool.true_or, if_true] at h
    split at h
    · exact Except.noConfusion h
    · rename_i tw heq
      cases h
      exact ⟨tw, heq, rfl, rfl⟩

def c4hist : List (Date × Setting) := [(⟨2024, 1, 31⟩, ⟨some "monthly", []⟩)]

def c4st : PState :=
  { holdings := fun _ => 0, cash := 1000, rebalanceCount := 1,
    currentFrequency := "monthly", nextAutoRebalanceDate := some ⟨2024, 1, 31⟩,
    lastSettingApplied := none }

def c4st' : PState :=
  { holdings := fun _ => 0, cash := 1000, rebalanceCount := 2,
    currentFrequency := "monthly", nextAutoRebalanceDate := some ⟨2024, 2, 29⟩,
    lastSettingApplied := some ⟨2024, 1, 31⟩ }

/-- Witness for C4: on 2024-01-31 a new settings entry is applied (forced)
while the scheduled monthly rebalance is also due (auto); the counter
increases by exactly 1. -/
theorem claim_c4_witness :
    c4st'.rebalanceCount = c4st.rebalanceCount +
      (if ((forcedSetting c4hist c4st ⟨2024, 1, 31⟩).isSome ||
          autoToday (noteForced c4st ⟨2024, 1, 31⟩
            (forcedSetting c4hist c4st ⟨2024, 1, 31⟩)) ⟨2024, 1, 31⟩) = true
       then 1 else 0) :=
  (claim_c4_trigger_interaction c4hist (fun _ _ => some 100) ["A"]).1
    c4st ⟨2024, 1, 31⟩ c4st' 1000 rfl

/-! ## Claim C10: first-day settings entry applied exactly once -/

/-- Counterexample for C10 as stated: an empty settings dict dated the
first simulated day is falsy, so it does not drive the initial allocation,
and — having been marked applied by line 178 — the loop's forced detection
never fires for it either: it contributes zero rebalances, not exactly
one. -/
theorem claim_c10_counterexample :
    backtest_portfolio [(⟨2024, 1, 2⟩, ⟨none, []⟩)] (fun _ _ => some 100) ["A"]
      [⟨2024, 1, 2⟩] 1000 = Except.ok ([(⟨2024, 1, 2⟩, 1000)], 0) ∧
    (0 : ℕ) ≠ 1 :=
  ⟨rfl, by decide⟩

theorem Date.not_le_of_lt {a b : Date} (h : Date.lt a b) : ¬ Date.le b a := by
  cases a; cases b
  simp only [Date.le, Date.lt, Date.mk.injEq, not_or, not_and, not_lt] at h ⊢
  omega

theorem autoToday_eq_false_of_scheduled (st : PState) (d : Date) (f : String)
    (hv : ValidDate d) (hna : st.nextAutoRebalanceDate = get_next_rebalance_date d f) :
    autoToday st d = false := by
  unfold autoToday
  rw [hna]
  cases hg : get_next_rebalance_date d f with
  | none => rfl
  | some a =>
    have hlt := get_next_rebalance_date_lt hv hg
    simp [decide_eq_false_iff_not, Date.not_le_of_lt hlt]

/-- Claim C10 amended: provided the first-day settings entry is non-empty
(truthy), it is applied exactly once — it drives the initial allocation
(rebalance count 1, marked as applied), and on the first day of the loop
neither the forced nor the auto trigger fires again, leaving the count at
1.  (An empty dict entry is instead applied zero times — see the
counterexample.) -/
theorem claim_c10_amended (hist : List (Date × Setting))
    (pd : Date → String → Option ℚ) (cols : List String) (capital : ℚ)
    (d0 : Date) (s : Setting) (tw : List (String × ℚ)) (st1 st2 : PState) (v : ℚ)
    (hvalid : ValidDate d0)
    (hfind : find_portfolio_settings_for_date hist d0 = some s)
    (hne : s.nonempty = true)
    (hkey : (histLookup hist d0).isSome = true)
    (hprep : prepare_tickers_weights (some s) = Except.ok tw)
    (hinit : applyInitial hist pd cols capital d0 = Except.ok st1)
    (hstep : dayStep hist pd cols st1 d0 = Except.ok (st2, v)) :
    st1.rebalanceCount = 1 ∧ st1.lastSettingApplied = some d0 ∧
      st2.rebalanceCount = 1 := by
  simp only [applyInitial, hfind, hne, hprep, hkey, if_true] at hinit
  cases hinit
  refine ⟨rfl, rfl, ?_⟩
  obtain ⟨s', hs'⟩ := Option.isSome_iff_exists.mp hkey
  have hfs : forcedSetting hist
      { holdings := (rebalance_portfolio capital (pd d0) tw cols).1,
        cash := (rebalance_portfolio capital (pd d0) tw cols).2,
        rebalanceCount := 1, currentFrequency := s.frequency,
        nextAutoRebalanceDate := get_next_rebalance_date d0 s.frequency,
        lastSettingApplied := some d0 } d0 = none := by
    unfold forcedSetting
    rw [hs']
    simp
  simp only [dayStep] at hstep
  rw [hfs] at hstep
  rw [autoToday_eq_false_of_scheduled _ d0 s.frequency hvalid rfl] at hstep
  simp only [Option.isSome_none, Bool.or_false, Bool.false_eq_true, if_false] at hstep
  cases hstep
  rfl

def c10hist : List (Date × Setting) := [(⟨2024, 1, 2⟩, ⟨some "none", []⟩)]

def c10st1 : PState :=
  { holdings := fun _ => 0, cash := 1000, rebalanceCount := 1,
    currentFrequency := "none", nextAutoRebalanceDate := none,
    lastSettingApplied := some ⟨2024, 1, 2⟩ }

/-- Witness for C10 amended: a truthy setting dated the first simulated day
yields exactly one rebalance after the first day's loop iteration. -/
theorem claim_c10_witness :
    c10st1.rebalanceCount = 1 ∧
      c10st1.lastSettingApplied = some ⟨2024, 1, 2⟩ ∧
      c10st1.rebalanceCount = 1 :=
  claim_c10_amended c10hist (fun _ _ => some 100) ["A"] 1000 ⟨2024, 1, 2⟩
    ⟨some "none", []⟩ [] c10st1 c10st1 1000 (by decide) rfl rfl rfl rfl rfl rfl

/-! ## Claim C3: the accounting invariant -/

/-- The invariant claimed for the portfolio state: non-negative cash and
whole, non-negative share counts. -/
def PInv (st : PState) : Prop :=
  0 ≤ st.cash ∧ ∀ t, ∃ n : ℕ, st.holdings t = (n : ℚ)

theorem rebalanceStep_inv (row : String → Option ℚ) (cols : List String)
    (hrow : ∀ t px, row t = some px → 0 < px)
    (hc : (String → ℚ) × ℚ) (hcash : 0 ≤ hc.2)
    (hhold : ∀ t, ∃ n : ℕ, hc.1 t = (n : ℚ))
    (tw : String × ℚ) (hw0 : 0 ≤ tw.2) (hw1 : tw.2 ≤ 1) :
    0 ≤ (rebalanceStep row cols hc tw).2 ∧
      ∀ t, ∃ n : ℕ, (rebalanceStep row cols hc tw).1 t = (n : ℚ) := by
  unfold rebalanceStep
  split
  · cases hpx : row tw.1 with
    | none => exact ⟨hcash, hhold⟩
    | some px =>
      have hpx0 : 0 < px := hrow tw.1 px hpx
      have halloc : 0 ≤ hc.2 * tw.2 := mul_nonneg hcash hw0
      have hfl0 : 0 ≤ ⌊hc.2 * tw.2 / px⌋ :=
        Int.floor_nonneg.mpr (div_nonneg halloc (le_of_lt hpx0))
      constructor
      · have hfl : ((⌊hc.2 * tw.2 / px⌋ : ℤ) : ℚ) ≤ hc.2 * tw.2 / px := Int.floor_le _
        have hcost : ((⌊hc.2 * tw.2 / px⌋ : ℤ) : ℚ) * px ≤ hc.2 * tw.2 := by
          calc ((⌊hc.2 * tw.2 / px⌋ : ℤ) : ℚ) * px
              ≤ (hc.2 * tw.2 / px) * px :=
                mul_le_mul_of_nonneg_right hfl (le_of_lt hpx0)
            _ = hc.2 * tw.2 := div_mul_cancel₀ _ (ne_of_gt hpx0)
        have hws : hc.2 * tw.2 ≤ hc.2 := by
          calc hc.2 * tw.2 ≤ hc.2 * 1 := mul_le_mul_of_nonneg_left hw1 hcash
            _ = hc.2 := mul_one _
        simp only []
        linarith
      · intro t
        simp only []
        by_cases ht : t = tw.1
        · subst ht
          rw [Function.update_same]
          exact ⟨(⌊hc.2 * tw.2 / px⌋).toNat, by exact_mod_cast (Int.toNat_of_nonneg hfl0).symm⟩
        · rw [Function.update_noteq ht]
          exact hhold t
  · exact ⟨hcash, hhold⟩

theorem rebalance_foldl_inv (row : String → Option ℚ) (cols : List String)
    (hrow : ∀ t px, row t = some px → 0 < px) :
    ∀ (tws : List (String × ℚ)) (hc : (String → ℚ) × ℚ),
      (∀ p ∈ tws, 0 ≤ p.2 ∧ p.2 ≤ 1) → 0 ≤ hc.2 →
      (∀ t, ∃ n : ℕ, hc.1 t = (n : ℚ)) →
      0 ≤ (tws.foldl (rebalanceStep row cols) hc).2 ∧
        ∀ t, ∃ n : ℕ, (tws.foldl (rebalanceStep row cols) hc).1 t = (n : ℚ) := by
  intro tws
  induction tws with
  | nil => exact fun hc _ h1 h2 => ⟨h1, h2⟩
  | cons p rest ih =>
    intro hc hws h1 h2
    rw [List.foldl_cons]
    obtain ⟨hp0, hp1⟩ := hws p (List.mem_cons_self p rest)
    obtain ⟨hc', hh'⟩ := rebalanceStep_inv row cols hrow hc h1 h2 p hp0 hp1
    exact ih _ (fun q hq => hws q (List.mem_cons_of_mem p hq)) hc' hh'

theorem rebalance_portfolio_inv (pv : ℚ) (row : String → Option ℚ)
    (tws : List (String × ℚ)) (cols : List String) (hpv : 0 ≤ pv)
    (hws0 : ∀ p ∈ tws, 0 ≤ p.2) (hsum : (tws.map Prod.snd).sum ≤ 1)
    (hrow : ∀ t px, row t = some px → 0 < px) :
    0 ≤ (rebalance_portfolio pv row tws cols).2 ∧
      ∀ t, ∃ n : ℕ, (rebalance_portfolio pv row tws cols).1 t = (n : ℚ) := by
  have hnn : ∀ x ∈ tws.map Prod.snd, (0 : ℚ) ≤ x := by
    intro x hx
    obtain ⟨p, hp, rfl⟩ := List.mem_map.mp hx
    exact hws0 p hp
  have hws : ∀ p ∈ tws, 0 ≤ p.2 ∧ p.2 ≤ 1 := fun p hp =>
    ⟨hws0 p hp,
     le_trans (List.single_le_sum hnn p.2 (List.mem_map_of_mem Prod.snd hp)) hsum⟩
  exact rebalance_foldl_inv row cols hrow tws (fun _ => 0, pv) hws hpv
    (fun t => ⟨0, by norm_num⟩)

theorem dailyValuation_nonneg (row : String → Option ℚ) (cols : List String)
    (h : String → ℚ) (c : ℚ) (hc : 0 ≤ c)
    (hh : ∀ t, ∃ n : ℕ, h t = (n : ℚ))
    (hrow : ∀ t px, row t = some px → 0 < px) :
    0 ≤ dailyValuation row cols h c := by
  induction cols generalizing c with
  | nil => exact hc
  | cons t rest ih =>
    rw [dailyValuation_cons]
    cases hr : row t with
    | none => exact ih c hc
    | some px =>
      dsimp only
      split
      · apply ih
        have hht : (0 : ℚ) ≤ h t := by
          obtain ⟨n, hn⟩ := hh t
          rw [hn]
          positivity
        have := le_of_lt (hrow t px hr)
        have := mul_nonneg hht this
        linarith
      · exact ih c hc

theorem histLookup_mem {hist : List (Date × Setting)} {d : Date} {s : Setting}
    (h : histLookup hist d = some s) : (d, s) ∈ hist := by
  induction hist with
  | nil => exact Option.noConfusion h
  | cons p rest ih =>
    obtain ⟨k, v⟩ := p
    unfold histLookup at h
    split at h
    · rename_i heq
      cases h
      subst heq
      exact List.mem_cons_self _ _
    · exact List.mem_cons_of_mem _ (ih h)

theorem pickLatest_mem :
    ∀ (l : List (Date × Setting)) (acc : Option (Date × Setting)) (p : Date × Setting),
      pickLatest acc l = some p → acc = some p ∨ p ∈ l := by
  intro l
  induction l with
  | nil =>
    intro acc p h
    cases acc with
    | none => exact Option.noConfusion h
    | some q => exact Or.inl h
  | cons q rest ih =>
    intro acc p h
    cases acc with
    | none =>
      rcases ih (some q) p h with h' | h'
      · cases h'
        exact Or.inr (List.mem_cons_self _ _)
      · exact Or.inr (List.mem_cons_of_mem _ h')
    | some a =>
      rcases ih _ p h with h' | h'
      · by_cases hle : Date.le a.1 q.1
        · rw [if_pos hle] at h'
          cases h'
          exact Or.inr (List.mem_cons_self _ _)
        · rw [if_neg hle] at h'
          exact Or.inl h'
      · exact Or.inr (List.mem_cons_of_mem _ h')

theorem find_portfolio_settings_mem {hist : List (Date × Setting)} {cur : Date}
    {s : Setting} (h : find_portfolio_settings_for_date hist cur = some s) :
    ∃ dt, (dt, s) ∈ hist := by
  unfold find_portfolio_settings_for_date at h
  obtain ⟨p, hp, hps⟩ := Option.map_eq_some'.mp h
  obtain ⟨pdt, pst⟩ := p
  rcases pickLatest_mem _ none (pdt, pst) hp with h' | h'
  · exact Option.noConfusion h'
  · have hmem : (pdt, pst) ∈ hist := List.mem_of_mem_filter h'
    cases hps
    exact ⟨pdt, hmem⟩

theorem forcedSetting_mem {hist : List (Date × Setting)} {st : PState} {d : Date}
    {s : Setting} (h : forcedSetting hist st d = some s) : (d, s) ∈ hist := by
  unfold forcedSetting at h
  cases hl : histLookup hist d with
  | none =>
    rw [hl] at h
    exact Option.noConfusion h
  | some s' =>
    rw [hl] at h
    dsimp only at h
    split at h
    · exact Option.noConfusion h
    · cases h
      exact histLookup_mem hl

theorem prepare_ok_imp {s : Setting} {tw : List (String × ℚ)}
    (h : prepare_tickers_weights (some s) = Except.ok tw) : tw = s.weights := by
  simp only [prepare_tickers_weights] at h
  split at h
  · exact Except.noConfusion h
  · cases h
    rfl

/-- Claim C3: whenever every setting in the history has non-negative
weights summing to at most 1 and every present price is positive, the
portfolio state satisfies `PInv` — cash ≥ 0 and whole non-negative share
counts — after the initial allocation (for a non-negative initial capital)
and after every daily step, i.e. after every rebalance. -/
theorem claim_c3_accounting_invariant (hist : List (Date × Setting))
    (pd : Date → String → Option ℚ) (cols : List String)
    (hw : ∀ p ∈ hist, (∀ q ∈ p.2.weights, 0 ≤ q.2) ∧
      (p.2.weights.map Prod.snd).sum ≤ 1)
    (hp : ∀ d t px, pd d t = some px → 0 < px) :
    (∀ capital d0 st', 0 ≤ capital →
      applyInitial hist pd cols capital d0 = Except.ok st' → PInv st') ∧
    (∀ st d st' v, PInv st →
      dayStep hist pd cols st d = Except.ok (st', v) → PInv st') := by
  have hweights : ∀ (s : Setting) (tw : List (String × ℚ)), (∃ dt, (dt, s) ∈ hist) →
      prepare_tickers_weights (some s) = Except.ok tw →
      (∀ q ∈ tw, 0 ≤ q.2) ∧ (tw.map Prod.snd).sum ≤ 1 := by
    rintro s tw ⟨dt, hmem⟩ hok
    rw [prepare_ok_imp hok]
    exact hw (dt, s) hmem
  constructor
  · intro capital d0 st' hcap h
    cases hfind : find_portfolio_settings_for_date hist d0 with
    | none =>
      simp only [applyInitial, hfind] at h
      cases h
      exact ⟨hcap, fun t => ⟨0, by norm_num⟩⟩
    | some s =>
      by_cases hne : s.nonempty = true
      · cases hprep : prepare_tickers_weights (some s) with
        | error e =>
          simp only [applyInitial, hfind, hne, hprep, if_true] at h
          exact Except.noConfusion h
        | ok tw =>
          simp only [applyInitial, hfind, hne, hprep, if_true] at h
          cases h
          have hprops := hweights s tw (find_portfolio_settings_mem hfind) hprep
          have hres := rebalance_portfolio_inv capital (pd d0) tw cols hcap
            hprops.1 hprops.2 (fun t px => hp d0 t px)
          exact ⟨hres.1, hres.2⟩
      · have hne' : s.nonempty = false := by
          revert hne
          cases s.nonempty <;> simp
        simp only [applyInitial, hfind, hne', Bool.false_eq_true, if_false] at h
        cases h
        exact ⟨hcap, fun t => ⟨0, by norm_num⟩⟩
  · intro st d st' v hinv h
    obtain ⟨hcash, hhold⟩ := hinv
    have hst1c := noteForced_cash st d (forcedSetting hist st d)
    have hst1h := noteForced_holdings st d (forcedSetting hist st d)
    simp only [dayStep] at h
    split at h
    · split at h
      · exact Except.noConfusion h
      · rename_i tw heq
        cases h
        have hpv : 0 ≤ dailyValuation (pd d) cols
            (noteForced st d (forcedSetting hist st d)).holdings
            (noteForced st d (forcedSetting hist st d)).cash := by
          rw [hst1c, hst1h]
          exact dailyValuation_nonneg _ cols _ _ hcash hhold (fun t px => hp d t px)
        have hprops : (∀ q ∈ tw, 0 ≤ q.2) ∧ (tw.map Prod.snd).sum ≤ 1 := by
          cases hfs : forcedSetting hist st d with
          | some s =>
            rw [hfs] at heq
            exact hweights s tw ⟨d, forcedSetting_mem hfs⟩ heq
          | none =>
            rw [hfs] at heq
            cases hfind : find_portfolio_settings_for_date hist d with
            | some s2 =>
              rw [hfind] at heq
              exact hweights s2 tw (find_portfolio_settings_mem hfind) heq
            | none =>
              rw [hfind] at heq
              cases heq
              exact ⟨fun q hq => absurd hq (List.not_mem_nil q), by simp⟩
        have hres := rebalance_portfolio_inv _ (pd d) tw cols hpv
          hprops.1 hprops.2 (fun t px => hp d t px)
        exact ⟨hres.1, hres.2⟩
    · cases h
      exact ⟨by rw [noteForced_cash]; exact hcash,
        by rw [noteForced_holdings]; exact hhold⟩

/-- Witness for C3: the trivial empty history preserves the invariant
through initialization and a daily step. -/
theorem claim_c3_witness :
    PInv { holdings := fun _ => 0, cash := 1000, rebalanceCount := 0,
           currentFrequency := "none", nextAutoRebalanceDate := none,
           lastSettingApplied := none } :=
  (claim_c3_accounting_invariant [] (fun _ _ => some 100) ["A"]
    (by simp) (by intro d t px h; cases h; norm_num)).2
    { holdings := fun _ => 0, cash := 1000, rebalanceCount := 0,
      currentFrequency := "none", nextAutoRebalanceDate := none,
      lastSettingApplied := none } ⟨2024, 1, 2⟩ _ 1000
    ((claim_c3_accounting_invariant [] (fun _ _ => some 100) ["A"]
      (by simp) (by intro d t px h; cases h; norm_num)).1 1000 ⟨2024, 1, 2⟩ _
      (by norm_num) rfl) rfl
